import Mathlib

/-
  Verification development for the flavorlens-data recipe pipeline
  (src/recipe_crawler_simple).  The Python sources are embedded shallowly:
  pure functions become Lean functions on List Char / String, the database
  is an explicit list of rows, and the network / LLM collaborators are
  function parameters.  Each claim of the specification is settled by a
  theorem below the definitions.
-/

/-! ## Python string primitives (ASCII model)

The crawler only handles URLs and status strings, so str.lower is modelled
on ASCII: bytes 65..90 map to 97..122, everything else is fixed.  Strings
are manipulated through their underlying List Char. -/

deriving instance DecidableEq for Except

/-- ASCII model of the Python str.lower character map. -/
def pyLower (c : Char) : Char :=
  if 65 ≤ c.toNat ∧ c.toNat ≤ 90 then Char.ofNat (c.toNat + 32) else c

/-- Lower-casing of a character list, as done by url.lower() in the source. -/
def lowerL (l : List Char) : List Char := l.map pyLower

/-- String wrapper for lowerL. -/
def lowerS (s : String) : String := ⟨lowerL s.data⟩

/-- Model of the Python rstrip with a slash argument: remove the maximal
run of trailing slash characters. -/
def rstripSlash (l : List Char) : List Char :=
  (l.reverse.dropWhile (fun c => c = '/')).reverse

/-! ## Embedding of urllib.parse (urlparse / urlunparse)

The two normalize_url functions and is_recipe call urlparse, so the parts
of CPython urllib.parse they exercise are embedded: removal of the unsafe
bytes tab, CR and LF, stripping of leading C0-control-or-space characters,
scheme splitting, netloc splitting with the mismatched-bracket ValueError,
fragment and query splitting, and the params split of urlparse.  The
bracketed-host validation added in later CPython versions is not modelled.
-/

/-- Leading characters stripped by urlsplit: C0 controls and space. -/
def isC0OrSpace (c : Char) : Bool := c.toNat ≤ 32

/-- The unsafe URL bytes removed everywhere by urlsplit: tab, CR, LF. -/
def isUnsafeChar (c : Char) : Bool := c = '\t' ∨ c = '\r' ∨ c = '\n'

/-- The preprocessing urlsplit applies to its argument before splitting. -/
def preprocessUrl (l : List Char) : List Char :=
  (l.dropWhile isC0OrSpace).filter (fun c => !isUnsafeChar c)

/-- Characters allowed in a URL scheme by urllib.parse. -/
def isSchemeChar (c : Char) : Bool :=
  c.isAlpha || c.isDigit || c = '+' || c = '-' || c = '.'

/-- Split a list at the first occurrence of a character; the separator is
dropped.  Returns none when the character does not occur. -/
def breakAtChar (c : Char) : List Char → Option (List Char × List Char)
  | [] => none
  | x :: xs =>
    if x = c then some ([], xs)
    else (breakAtChar c xs).map (fun p => (x :: p.1, p.2))

/-- Python url.split(sep, 1) pattern used by urlsplit for fragment and
query: the part before the first occurrence and the part after it. -/
def cutAtChar (c : Char) (l : List Char) : List Char × List Char :=
  match breakAtChar c l with
  | none => (l, [])
  | some p => p

/-- Scheme splitting of urlsplit: the text before the first colon is taken
as the scheme when it is nonempty, starts with an ASCII letter and consists
of scheme characters only; otherwise the URL is left unchanged. -/
def schemeSplit (l : List Char) : List Char × List Char :=
  match breakAtChar ':' l with
  | none => ([], l)
  | some p =>
    match p.1 with
    | [] => ([], l)
    | b :: bs =>
      if b.isAlpha && (b :: bs).all isSchemeChar then (lowerL (b :: bs), p.2)
      else ([], l)

/-- A netloc terminator: slash, question mark or hash. -/
def notDelim (c : Char) : Bool := !(c = '/' || c = '?' || c = '#')

/-- The Invalid IPv6 URL condition of urlsplit: a bracket appears in the
netloc without its counterpart. -/
def badNetlocBrackets (n : List Char) : Bool :=
  (n.contains '[' && !n.contains ']') || (n.contains ']' && !n.contains '[')

/-- Result record of urlsplit. -/
structure SplitResult where
  scheme : List Char
  netloc : List Char
  path : List Char
  query : List Char
  fragment : List Char
deriving DecidableEq

/-- Final stage of urlsplit: bracket validation, then fragment and query
splitting of the remainder. -/
def mkSplit (scheme netloc rest2 : List Char) : Except String SplitResult :=
  if badNetlocBrackets netloc then .error "Invalid IPv6 URL"
  else
    .ok ⟨scheme, netloc,
      (cutAtChar '?' (cutAtChar '#' rest2).1).1,
      (cutAtChar '?' (cutAtChar '#' rest2).1).2,
      (cutAtChar '#' rest2).2⟩

/-- Netloc stage of urlsplit: when the remainder starts with two slashes
the netloc extends to the next slash, question mark or hash. -/
def splitAfterScheme (scheme rest : List Char) : Except String SplitResult :=
  if rest.take 2 = ['/', '/'] then
    mkSplit scheme ((rest.drop 2).takeWhile notDelim) ((rest.drop 2).dropWhile notDelim)
  else mkSplit scheme [] rest

/-- urlsplit on a preprocessed list. -/
def urlsplitCore (l : List Char) : Except String SplitResult :=
  splitAfterScheme (schemeSplit l).1 (schemeSplit l).2

/-- Model of urllib.parse.urlsplit, including its preprocessing.  The
ValueError raised on mismatched netloc brackets becomes the error case. -/
def urlsplitE (l : List Char) : Except String SplitResult :=
  urlsplitCore (preprocessUrl l)

/-- The params split of urlparse: parameters are taken after the first
semicolon of the last path segment. -/
def splitparams (path : List Char) : List Char × List Char :=
  if path.contains '/' then
    match breakAtChar ';' (path.reverse.takeWhile (fun c => c ≠ '/')).reverse with
    | none => (path, [])
    | some p =>
      (path.take (path.length - (path.reverse.takeWhile (fun c => c ≠ '/')).reverse.length) ++ p.1, p.2)
  else
    match breakAtChar ';' path with
    | none => (path, [])
    | some p => p

/-- Result record of urlparse. -/
structure ParseResult where
  scheme : List Char
  netloc : List Char
  path : List Char
  params : List Char
  query : List Char
  fragment : List Char
deriving DecidableEq

/-- Model of urllib.parse.urlparse: urlsplit followed by the params split
of the path. -/
def urlparseE (l : List Char) : Except String ParseResult :=
  match urlsplitE l with
  | .error e => .error e
  | .ok r =>
    .ok ⟨r.scheme, r.netloc, (splitparams r.path).1, (splitparams r.path).2, r.query, r.fragment⟩

/-- Model of urlunparse as invoked by normalize_url: the scheme is the
literal https, params, query and fragment are empty. -/
def unsplitHttps (netloc path : List Char) : List Char :=
  ("https:".data) ++
    (if netloc ≠ [] ∨ path.take 2 = ['/', '/'] then
      ['/', '/'] ++ netloc ++
        (if path ≠ [] ∧ path.take 1 ≠ ['/'] then '/' :: path else path)
    else path)

/-- The trailing-slash treatment of normalize_url: the root path is kept,
any other path loses its trailing slashes. -/
def stripPath (path : List Char) : List Char :=
  if path ≠ ['/'] then rstripSlash path else path

/-- Python substring containment (the in operator) via an explicit
leading-match scan. -/
def begMatch : List Char → List Char → Bool
  | [], _ => true
  | _ :: _, [] => false
  | a :: as, b :: bs => a = b && begMatch as bs

/-- Python substring containment: the needle occurs somewhere in the hay. -/
def hasSub (needle : List Char) : List Char → Bool
  | [] => begMatch needle []
  | c :: rest => begMatch needle (c :: rest) || hasSub needle rest

namespace SitemapProcessor

/-- Embedding of normalize_url from sitemap_processor.py: lower-case,
parse, force the https scheme, strip the trailing slash except for the
root path, drop params, query and fragment; any exception from urlparse
or urlunparse falls back to the lower-cased slash-right-stripped input. -/
def normCore (u : List Char) : List Char :=
  if u = [] then u
  else
    match urlparseE (lowerL u) with
    | .error _ => rstripSlash (lowerL u)
    | .ok p => unsplitHttps p.netloc (stripPath p.path)

/-- String-level normalize_url of sitemap_processor.py. -/
def normalize_url (s : String) : String := ⟨normCore s.data⟩

end SitemapProcessor

namespace Utils

/-- Embedding of normalize_url from utils.py.  That module imports only
urlparse from urllib.parse, so the urlunparse call in the return raises
NameError at run time; the bare except catches it (as well as any
ValueError from urlparse) and every nonempty input takes the degraded
fallback: lower-case and strip trailing slashes. -/
def normCore (u : List Char) : List Char :=
  if u = [] then u else rstripSlash (lowerL u)

/-- String-level normalize_url of utils.py. -/
def normalize_url (s : String) : String := ⟨normCore s.data⟩

end Utils

namespace Utils

/-- Embedding of is_recipe from utils.py.  The urlparse call of rule 1 can
raise (mismatched netloc brackets), and that exception propagates to the
caller, hence the Except result; otherwise the three rules are evaluated
in order. -/
def is_recipe (url title description content : String) : Except String Bool :=
  match urlparseE (lowerL url.data) with
  | .error e => .error e
  | .ok pr =>
    if hasSub "recipe".data (lowerL pr.path) then .ok true
    else if hasSub "recipe".data (lowerL title.data) ||
        hasSub "recipe".data (lowerL description.data) then .ok true
    else if (hasSub "ingredient".data (lowerL content.data) ||
          hasSub "ingredients".data (lowerL content.data))
        && ([ "instruction", "instructions", "direction", "directions", "steps", "step" ].any
              (fun w => hasSub w.data (lowerL content.data))) then .ok true
    else .ok false

/-- Outcome of one proxied HTTP attempt: a response with status and body,
or a raised transport exception. -/
inductive HttpResult where
  | resp (status : Nat) (body : String)
  | raise
deriving DecidableEq

/-- Embedding of fetch_with_proxies from utils.py.  The proxies are tried
in order; a missing or empty proxy address is skipped; a 200 response
returns its body with the proxy label; any other status raises and is
caught, moving on to the next proxy; when every proxy is exhausted the
function returns the pair of None values.  The tenacity retry decorator
around it never fires because the function returns normally in all cases.
The network is a function from proxy address and url to an outcome. -/
def fetch_with_proxies (proxies : List (Option String × String))
    (net : String → String → HttpResult) (url : String) :
    Option String × Option String :=
  match proxies with
  | [] => (none, none)
  | (purl, label) :: rest =>
    match purl with
    | none => fetch_with_proxies rest net url
    | some p =>
      if p = "" then fetch_with_proxies rest net url
      else
        match net p url with
        | .resp 200 body => (some body, some label)
        | .resp _ _ => fetch_with_proxies rest net url
        | .raise => fetch_with_proxies rest net url

end Utils

/-! ## The recipe_urls store

A row of the recipe.recipe_urls table.  The failure branch of
ContentProcessor.save_results issues an UPDATE against a column named
crwal_status (sic); it is modelled as its own field so that the effect on
the real crawl_status column (none) is visible.  Timestamps are natural
numbers. -/

structure UrlRow where
  id : Nat
  url : String
  crawl_status : String
  crwal_status : Option String
  crawl_failure_reason : Option String
  parsed_text : Option String
  page_title : Option String
  page_description : Option String
  is_recipe : Option Bool
  proxy_used : Option String
  last_crawled : Option Nat
  llm_status : String
  llm_failure_reason : Option String
deriving DecidableEq

namespace ContentProcessor

/-- Embedding of ContentProcessor.get_pending_urls: a plain SELECT of at
most batch_size rows whose crawl_status is pending.  No status is written. -/
def get_pending_urls (store : List UrlRow) (batch_size : Nat) : List UrlRow :=
  (store.filter (fun r => r.crawl_status = "pending")).take batch_size

/-- The claim step of the crawl phase as the code performs it: the selected
rows together with the store it leaves behind, which is unchanged. -/
def claim_step (store : List UrlRow) (batch_size : Nat) :
    List UrlRow × List UrlRow :=
  (get_pending_urls store batch_size, store)

/-- Payload assembled by process_url on success. -/
structure CrawlPayload where
  parsed_text : String
  page_title : String
  page_description : String
  is_recipe : Bool
  proxy_used : Option String
deriving DecidableEq

/-- Embedding of ContentProcessor.process_url for one row.  The
BeautifulSoup extraction of (clean text, title, description) is the parse
collaborator, which may raise.  A falsy fetched content (None or the empty
string) is reported as the failure fetch_failed; any exception string is
reported through the error slot, as the generic except branch does. -/
def process_url (proxies : List (Option String × String))
    (net : String → String → Utils.HttpResult)
    (parse : String → Except String (String × String × String))
    (r : UrlRow) :
    Nat × Option CrawlPayload × Option String × Option String :=
  let fr := Utils.fetch_with_proxies proxies net r.url
  match fr.1 with
  | none => (r.id, none, some "fetch_failed", fr.2)
  | some content =>
    if content = "" then (r.id, none, some "fetch_failed", fr.2)
    else
      match parse content with
      | .error e => (r.id, none, some e, none)
      | .ok (clean_text, title, description) =>
        match Utils.is_recipe r.url title description clean_text with
        | .error e => (r.id, none, some e, none)
        | .ok flag =>
          (r.id, some ⟨clean_text, title, description, flag, fr.2⟩, none, fr.2)

/-- Embedding of ContentProcessor.save_results.  The success branch
updates the real columns and sets crawl_status to complete; the failure
branch writes to the misspelled crwal_status column and to
crawl_failure_reason, leaving crawl_status untouched. -/
def save_results
    (results : List (Nat × Option CrawlPayload × Option String × Option String))
    (store : List UrlRow) (now : Nat) : List UrlRow :=
  results.foldl (fun st res =>
    let (rid, data, err, proxy) := res
    match data with
    | some d =>
      st.map (fun r =>
        if r.id = rid then
          { r with parsed_text := some d.parsed_text,
                   page_title := some d.page_title,
                   page_description := some d.page_description,
                   is_recipe := some d.is_recipe,
                   crawl_status := "complete",
                   proxy_used := d.proxy_used,
                   last_crawled := some now }
        else r)
    | none =>
      st.map (fun r =>
        if r.id = rid then
          { r with crwal_status := some "failed",
                   crawl_failure_reason := err,
                   proxy_used := proxy,
                   last_crawled := some now }
        else r)) store

end ContentProcessor

/-! ## Recipe extraction (openai_recipe_processor.py) -/

/-- One ingredient object of the structured extraction schema. -/
structure IngredientModel where
  ingredient : Option String
  flavor_ingredient : Option String
  format : Option String
  prep_method : Option String
  quantity : Option Int
  units : Option String
  type : Option String
  ingredient_role : Option String
  flavor_role : Option String
  alternative_ingredients : Option String
deriving DecidableEq

/-- The attributes object of the structured extraction schema. -/
structure AttributesModel where
  flavor_attributes : Option (List String)
  texture_attributes : Option (List String)
  aroma_attributes : Option (List String)
  cooking_techniques : Option (List String)
  diet_preferences : Option (List String)
  functional_health : Option (List String)
  occasions : Option (List String)
  convenience_attributes : Option (List String)
  social_setting : Option (List String)
  emotional_attributes : Option (List String)
deriving DecidableEq

/-- The structured dish returned by the LLM (DishModel of the prompts
module).  The numeric rating is modelled as an integer; its value plays no
role in any claim. -/
structure DishModel where
  dish_name : Option String
  description : Option String
  meal_time : Option String
  general_category : Option String
  specific_category : Option String
  cuisine : Option String
  complexity : Option String
  serving_temperature : Option String
  season : Option String
  star_rating : Option Int
  num_ratings : Option Int
  num_reviews : Option Int
  date_published : Option String
  date_updated : Option String
  ingredients : List IngredientModel
  attributes : Option AttributesModel
deriving DecidableEq

/-- A row of recipe.dishes keyed by dish_id; source is hardcoded to the
string recipe by save_dish. -/
structure DishRow where
  dish_id : Nat
  dish_name : Option String
  description : Option String
  meal_time : Option String
  general_category : Option String
  specific_category : Option String
  cuisine : Option String
  complexity : Option String
  serving_temperature : Option String
  season : Option String
  source : Option String
  star_rating : Option Int
  num_ratings : Option Int
  num_reviews : Option Int
  date_published : Option String
  date_updated : Option String
deriving DecidableEq

/-- A row of recipe.dish_ingredients, in the column order of the INSERT. -/
structure IngRow where
  dish_id : Nat
  ingredient : Option String
  flavor_ingredient : Option String
  format : Option String
  prep_method : Option String
  quantity : Option Int
  units : Option String
  type : Option String
  ingredient_role : Option String
  flavor_role : Option String
  alternative_ingredients : Option String
deriving DecidableEq

/-- A row of recipe.dish_attributes keyed by dish_id. -/
structure AttrRow where
  dish_id : Nat
  flavor_attributes : Option (List String)
  texture_attributes : Option (List String)
  aroma_attributes : Option (List String)
  cooking_techniques : Option (List String)
  diet_preferences : Option (List String)
  functional_health : Option (List String)
  occasions : Option (List String)
  convenience_attributes : Option (List String)
  social_setting : Option (List String)
  emotional_attributes : Option (List String)
deriving DecidableEq

/-- The three tables written by save_dish. -/
structure RecipeDB where
  dishes : List DishRow
  dish_ingredients : List IngRow
  dish_attributes : List AttrRow
deriving DecidableEq

namespace RecipeExtractor

/-- Comparison used to model ORDER BY last_crawled DESC: larger timestamps
first, SQL NULLs first as PostgreSQL orders them under DESC. -/
def lcDescBefore (a b : Option Nat) : Bool :=
  match a, b with
  | none, _ => true
  | some _, none => false
  | some x, some y => y ≤ x

/-- Insertion step of the stable sort modelling the ORDER BY clause. -/
def insertDesc (r : UrlRow) : List UrlRow → List UrlRow
  | [] => [r]
  | x :: xs =>
    if lcDescBefore r.last_crawled x.last_crawled then r :: x :: xs
    else x :: insertDesc r xs

/-- Stable insertion sort by last_crawled descending. -/
def sortDesc : List UrlRow → List UrlRow
  | [] => []
  | x :: xs => insertDesc x (sortDesc xs)

/-- Embedding of RecipeExtractor.get_pending_recipes: rows with
is_recipe true, crawl_status complete, parsed_text IS NOT NULL and
llm_status pending, ordered by last_crawled descending, limited to the
batch size.  Again no status is written by this claim step. -/
def get_pending_recipes (store : List UrlRow) (batch_size : Nat) : List UrlRow :=
  (sortDesc (store.filter (fun r =>
    decide (r.is_recipe = some true ∧ r.crawl_status = "complete" ∧
      r.parsed_text ≠ none ∧ r.llm_status = "pending")))).take batch_size

/-- Embedding of RecipeExtractor.update_llm_status. -/
def update_llm_status (store : List UrlRow) (rid : Nat) (status : String)
    (failure_reason : Option String) : List UrlRow :=
  store.map (fun r =>
    if r.id = rid then
      { r with llm_status := status, llm_failure_reason := failure_reason }
    else r)

/-- Row of the dishes table produced from a DishModel by save_dish, with
the hardcoded source value. -/
def mkDishRow (rid : Nat) (d : DishModel) : DishRow :=
  ⟨rid, d.dish_name, d.description, d.meal_time, d.general_category,
   d.specific_category, d.cuisine, d.complexity, d.serving_temperature,
   d.season, some "recipe", d.star_rating, d.num_ratings, d.num_reviews,
   d.date_published, d.date_updated⟩

/-- Row of the dish_ingredients table for one ingredient of a dish. -/
def mkIngRow (rid : Nat) (i : IngredientModel) : IngRow :=
  ⟨rid, i.ingredient, i.flavor_ingredient, i.format, i.prep_method,
   i.quantity, i.units, i.type, i.ingredient_role, i.flavor_role,
   i.alternative_ingredients⟩

/-- Row of the dish_attributes table. -/
def mkAttrRow (rid : Nat) (a : AttributesModel) : AttrRow :=
  ⟨rid, a.flavor_attributes, a.texture_attributes, a.aroma_attributes,
   a.cooking_techniques, a.diet_preferences, a.functional_health,
   a.occasions, a.convenience_attributes, a.social_setting,
   a.emotional_attributes⟩

/-- Upsert (INSERT ... ON CONFLICT DO UPDATE) of one row into a table
keyed by dish_id. -/
def upsertBy {α : Type} (key : α → Nat) (row : α) (table : List α) : List α :=
  if table.any (fun r => key r = key row) then
    table.map (fun r => if key r = key row then row else r)
  else table ++ [row]

/-- Embedding of RecipeExtractor.save_dish: upsert of the dish row; then,
only when the ingredient list is non-empty, a DELETE of the existing
ingredient rows of the dish followed by the INSERT of the new ones; then
an upsert of the attributes row when attributes are present. -/
def save_dish (db : RecipeDB) (rid : Nat) (dish : DishModel) : RecipeDB :=
  let db1 : RecipeDB :=
    { db with dishes := upsertBy DishRow.dish_id (mkDishRow rid dish) db.dishes }
  let db2 : RecipeDB :=
    if dish.ingredients ≠ [] then
      { db1 with dish_ingredients :=
          (db1.dish_ingredients.filter (fun r => r.dish_id ≠ rid)) ++
            dish.ingredients.map (mkIngRow rid) }
    else db1
  match dish.attributes with
  | some a =>
    { db2 with dish_attributes := upsertBy AttrRow.dish_id (mkAttrRow rid a) db2.dish_attributes }
  | none => db2

/-- Python try/except around a computation that may raise: the handler
receives the stringified exception. -/
def pyTry {α : Type} (x : Except String α) (handler : String → α) : α :=
  match x with
  | .ok v => v
  | .error e => handler e

/-- One execution of the body of extract_recipe for a claimed row: the LLM
call either returns a parsed dish or raises; the internal except branch
catches every exception and returns the pair of the id and None.  The LLM
collaborator is indexed by the attempt number. -/
def extract_recipe_body (llm : Nat → Except String DishModel)
    (rid : Nat) (attempt : Nat) : Nat × Option DishModel :=
  pyTry (do
    let d ← llm attempt
    pure (rid, some d))
    (fun _ => (rid, none))

/-- Model of the tenacity retry loop with stop_after_attempt: the body is
re-run while it raises, up to the attempt budget, and the pair carries the
number of attempts actually made.  The configured wait_exponential delays
(multiplier 1, minimum 4, maximum 10) do not affect the value. -/
def tenacityRun {α : Type} : Nat → Nat → (Nat → Except String α) →
    Except String α × Nat
  | 0, made, _ => (.error "retry budget exhausted", made)
  | fuel + 1, made, body =>
    match body made with
    | .ok v => (.ok v, made + 1)
    | .error e => if fuel = 0 then (.error e, made + 1) else tenacityRun fuel (made + 1) body

/-- Embedding of RecipeExtractor.extract_recipe as decorated by
retry(stop_after_attempt(3), wait_exponential(...)): tenacity wraps the
coroutine, whose body never raises because of its internal except branch. -/
def extract_recipe (llm : Nat → Except String DishModel) (rid : Nat) :
    Except String (Nat × Option DishModel) × Nat :=
  tenacityRun 3 0 (fun attempt => .ok (extract_recipe_body llm rid attempt))

/-- The per-result arm of the run loop: a parsed dish is saved and the row
marked complete; a None dish marks the row failed with the fixed reason
string used by the code. -/
def settle_result (store : List UrlRow) (db : RecipeDB)
    (res : Nat × Option DishModel) : List UrlRow × RecipeDB :=
  match res with
  | (rid, some d) => (update_llm_status store rid "complete" none, save_dish db rid d)
  | (rid, none) =>
    (update_llm_status store rid "failed" (some "OpenAI extraction failed"), db)

end RecipeExtractor

/-! ## Sitemap walker (sitemap_processor.py) -/

namespace SitemapProcessor

/-- A candidate page URL collected from a urlset entry: original location,
optional lastmod, and the sitemap it came from. -/
structure UrlData where
  original_url : String
  lastmod : Option String
  sitemap_url : String
deriving DecidableEq

/-- Parsed content of a fetched sitemap document, standing in for the
BeautifulSoup XML view used by _extract_from_sitemap: a sitemapindex root
with the loc texts of its sitemap children, a urlset with the loc and
lastmod of its url entries, or a document with neither root whose bare loc
tags are scanned by the fallback branch. -/
inductive SitemapContent where
  | index (children : List String)
  | urlset (entries : List (String × Option String))
  | bare (locs : List String)
deriving DecidableEq

/-- Embedding of SitemapCrawler._extract_from_sitemap: a sitemapindex
yields nested sitemaps only; in a urlset, any loc containing the substring
sitemap is routed to the nested list, the rest become candidate pages with
their lastmod; the fallback scan treats bare loc texts the same way with
no lastmod. -/
def extract_from_sitemap (c : SitemapContent) (sitemap_url : String) :
    List String × List UrlData :=
  match c with
  | .index children => (children, [])
  | .urlset entries =>
    ((entries.filter (fun e => hasSub "sitemap".data (lowerL e.1.data))).map (fun e => e.1),
     (entries.filter (fun e => !hasSub "sitemap".data (lowerL e.1.data))).map
       (fun e => ⟨e.1, e.2, sitemap_url⟩))
  | .bare locs =>
    ((locs.filter (fun u => hasSub "sitemap".data (lowerL u.data))),
     (locs.filter (fun u => !hasSub "sitemap".data (lowerL u.data))).map
       (fun u => ⟨u, none, sitemap_url⟩))

/-- State threaded through a walk: collected candidate pages, the shared
processed_sitemaps set (a list with membership tests), and the trace of
sitemap URLs in fetch order. -/
structure WalkResult where
  urls : List UrlData
  visited : List String
  trace : List String
deriving DecidableEq

/-- Embedding of SitemapCrawler._process_sitemap_recursive.  The fuel
argument is the remaining depth budget: a call at depth d runs with fuel
max_depth + 1 - d, so fuel 0 is exactly the depth > max_depth guard.  A
URL already in the visited set is skipped; a failed fetch contributes
nothing and is not marked visited; otherwise the nested sitemaps are
processed recursively in order, and the URL is added to the visited set
only after that loop, exactly as in the source. -/
def procSitemap (fetch : String → Option SitemapContent) :
    Nat → String → List String → WalkResult
  | 0, _, visited => ⟨[], visited, []⟩
  | fuel + 1, url, visited =>
    if url ∈ visited then ⟨[], visited, []⟩
    else
      match fetch url with
      | none => ⟨[], visited, [url]⟩
      | some content =>
        let ex := extract_from_sitemap content url
        let r := ex.1.foldl (fun (acc : WalkResult) nurl =>
            let r1 := procSitemap fetch fuel nurl acc.visited
            ⟨acc.urls ++ r1.urls, r1.visited, acc.trace ++ r1.trace⟩)
          (⟨ex.2, visited, [url]⟩ : WalkResult)
        ⟨r.urls, url :: r.visited, r.trace⟩

/-- The loop that runs the recursive walk over a list of sitemaps in
order, threading the shared visited set; it is both the inner loop of
_process_sitemap_recursive and the seed loop of get_all_urls_from_site. -/
def procChildren (fetch : String → Option SitemapContent) (fuel : Nat)
    (sitemaps : List String) (acc : WalkResult) : WalkResult :=
  sitemaps.foldl (fun (acc : WalkResult) nurl =>
    let r1 := procSitemap fetch fuel nurl acc.visited
    ⟨acc.urls ++ r1.urls, r1.visited, acc.trace ++ r1.trace⟩) acc

/-- Python str.strip for the whitespace set relevant here. -/
def pyStrip (s : String) : String :=
  ⟨((s.data.dropWhile isC0OrSpace).reverse.dropWhile isC0OrSpace).reverse⟩

/-- Embedding of SitemapCrawler.get_all_urls_from_site: manual sitemaps
(stripped) followed by the four standard locations are walked in order at
depth 0 with a shared visited set; afterwards candidates are deduplicated
by normalized URL, first occurrence winning, each kept entry paired with
its normalized form. -/
def get_all_urls_from_site (fetch : String → Option SitemapContent)
    (max_depth : Nat) (site_url : String) (manual : List String) :
    List (String × UrlData) :=
  let base := String.mk (rstripSlash site_url.data)
  let seeds := manual.map pyStrip ++
    [base ++ "/sitemap.xml", base ++ "/sitemap_index.xml",
     base ++ "/sitemap", base ++ "/sitemaps.xml"]
  let walk := procChildren fetch (max_depth + 1) seeds ⟨[], [], []⟩
  (walk.urls.foldl (fun (acc : List (String × UrlData) × List String) u =>
      let n := normalize_url u.original_url
      if n ∈ acc.2 then acc
      else (acc.1 ++ [(n, u)], acc.2 ++ [n])) ([], [])).1

end SitemapProcessor

/-! ## Concrete fixtures used by the evaluation theorems -/

/-- A freshly discovered URL row in the pending crawl state. -/
def pendingRow : UrlRow :=
  ⟨1, "https://x.example/recipes/pie", "pending", none, none, none, none,
   none, none, none, none, "pending", none⟩

/-- A crawled recipe row awaiting extraction. -/
def crawledRow : UrlRow :=
  ⟨2, "https://x.example/recipes/tart", "complete", none, none, some "tart text",
   some "Tart", some "", some true, some "datacenter", some 11, "pending", none⟩

/-- A crawled recipe row whose parsed_text is the empty string. -/
def emptyTextRow : UrlRow :=
  ⟨3, "https://x.example/recipes/void", "complete", none, none, some "",
   some "Void", some "", some true, some "datacenter", some 12, "pending", none⟩

/-- The configured proxy list of fetch_with_proxies: datacenter first,
then premium. -/
def demoProxies : List (Option String × String) :=
  [(some "http://dc.proxy.example:8080", "datacenter"),
   (some "http://prem.proxy.example:8080", "premium")]

/-- A network on which every proxied request raises. -/
def netAllRaise : String → String → Utils.HttpResult := fun _ _ => .raise

/-- A network on which every proxied request returns HTTP 200 with an
empty body. -/
def netEmpty200 : String → String → Utils.HttpResult := fun _ _ => .resp 200 ""

/-- A parse collaborator that is never reached in the failure scenarios. -/
def parseUnused : String → Except String (String × String × String) :=
  fun _ => .error "unused"

/-- An LLM collaborator that raises on every attempt. -/
def llmBoom : Nat → Except String DishModel := fun _ => .error "boom"

/-- The empty extraction database. -/
def emptyRecipeDB : RecipeDB := ⟨[], [], []⟩

/-- Shorthand for an ingredient object carrying only a name. -/
def mkIng (name : String) : IngredientModel :=
  ⟨some name, some name, none, none, none, none, none, none, none, none⟩

/-- A dish whose extraction succeeded with an empty ingredient list. -/
def emptyIngDish : DishModel :=
  ⟨some "Void Pie", none, none, none, none, none, none, none, none,
   none, none, none, none, none, [], none⟩

/-- A dish extracted with exactly two ingredients. -/
def twoIngDish : DishModel :=
  ⟨some "Apple Pie", none, none, none, none, none, none, none, none,
   none, none, none, none, none, [mkIng "apples", mkIng "butter"], none⟩

/-- A database holding three ingredient child rows for dish 1. -/
def threeIngDB : RecipeDB :=
  ⟨[⟨1, some "Apple Pie", none, none, none, none, none, none, none, none,
     some "recipe", none, none, none, none, none⟩],
   [RecipeExtractor.mkIngRow 1 (mkIng "apples"),
    RecipeExtractor.mkIngRow 1 (mkIng "butter"),
    RecipeExtractor.mkIngRow 1 (mkIng "flour")],
   []⟩

/-- A two-node sitemap cycle: each sitemap lists the other as a nested
sitemap. -/
def cycFetch : String → Option SitemapProcessor.SitemapContent := fun u =>
  if u = "https://a.example/sa.xml" then
    some (.index ["https://a.example/sb.xml"])
  else if u = "https://a.example/sb.xml" then
    some (.index ["https://a.example/sa.xml"])
  else none

/-- A sitemap tree: the root index lists sitemaps A and B (depth 1), A
lists the nested sitemap A1 (depth 2), A1 and B are urlsets. -/
def treeFetch : String → Option SitemapProcessor.SitemapContent := fun u =>
  if u = "root" then some (.index ["A", "B"])
  else if u = "A" then some (.index ["A1"])
  else if u = "A1" then some (.urlset [("https://x.example/p1", none)])
  else if u = "B" then some (.urlset [("https://x.example/p2", none)])
  else none

/-! # Theorems

Helper lemmas come first; the claim theorems and their witnesses follow.
-/

/-! ## Helper lemmas on the batch claim predicates -/

theorem mem_insertDesc {a r : UrlRow} {l : List UrlRow} :
    a ∈ RecipeExtractor.insertDesc r l ↔ a = r ∨ a ∈ l := by
  induction l with
  | nil => simp [RecipeExtractor.insertDesc]
  | cons x xs ih =>
    unfold RecipeExtractor.insertDesc
    split
    · simp
    · simp [ih]
      tauto

theorem mem_sortDesc {a : UrlRow} {l : List UrlRow} :
    a ∈ RecipeExtractor.sortDesc l ↔ a ∈ l := by
  induction l with
  | nil => simp [RecipeExtractor.sortDesc]
  | cons x xs ih => simp [RecipeExtractor.sortDesc, mem_insertDesc, ih]

/-! ## C1: the claim step is not atomic and writes no status -/

/-- C1, evaluated at the failing input: a store holding one pending row.
The claim step of the crawl phase returns the row but leaves the store
unchanged: no row is moved to in_progress, and an immediately subsequent
pending-scoped claim selects the same row instead of a disjoint set.  The
extraction-phase claim behaves the same way on an eligible row. -/
theorem C1_claim_not_atomic_eval :
    (ContentProcessor.claim_step [pendingRow] 5).1.map UrlRow.id = [1] ∧
    (ContentProcessor.claim_step [pendingRow] 5).2 = [pendingRow] ∧
    (ContentProcessor.claim_step
      (ContentProcessor.claim_step [pendingRow] 5).2 5).1.map UrlRow.id = [1] ∧
    ((ContentProcessor.claim_step [pendingRow] 5).2.all
      (fun r => r.crawl_status != "in_progress")) = true ∧
    RecipeExtractor.get_pending_recipes [crawledRow] 5 = [crawledRow] ∧
    RecipeExtractor.get_pending_recipes [crawledRow] 5 =
      RecipeExtractor.get_pending_recipes [crawledRow] 5 ∧
    ([crawledRow].all (fun r => r.llm_status != "in_progress")) = true := by
  refine ⟨by decide, by decide, by decide, by decide, by decide, rfl, by decide⟩

/-! ## C2: a row failing all proxies is not moved to crawl_status failed -/

/-- C2, evaluated at the failing input: a pending row whose fetch raises
on every proxy.  process_url reports the failure as fetch_failed, but
save_results writes the misspelled crwal_status column, so crawl_status
remains pending, the recorded reason is fetch_failed rather than
no_response_after_all_retries, and the next pending-scoped claim selects
the row again. -/
theorem C2_failed_fetch_row_eval :
    ContentProcessor.process_url demoProxies netAllRaise parseUnused pendingRow =
      (1, none, some "fetch_failed", none) ∧
    (ContentProcessor.save_results
      [ContentProcessor.process_url demoProxies netAllRaise parseUnused pendingRow]
      [pendingRow] 7).map UrlRow.crawl_status = ["pending"] ∧
    (ContentProcessor.save_results
      [ContentProcessor.process_url demoProxies netAllRaise parseUnused pendingRow]
      [pendingRow] 7).map UrlRow.crwal_status = [some "failed"] ∧
    (ContentProcessor.save_results
      [ContentProcessor.process_url demoProxies netAllRaise parseUnused pendingRow]
      [pendingRow] 7).map UrlRow.crawl_failure_reason = [some "fetch_failed"] ∧
    (ContentProcessor.get_pending_urls
      (ContentProcessor.save_results
        [ContentProcessor.process_url demoProxies netAllRaise parseUnused pendingRow]
        [pendingRow] 7) 5).map UrlRow.id = [1] ∧
    "fetch_failed" ≠ "no_response_after_all_retries" := by
  refine ⟨by decide, by decide, by decide, by decide, by decide, by decide⟩

/-! ## C3: a sitemap cycle is fetched more than once -/

/-- C3, evaluated at the failing input: the two-sitemap cycle A - B - A
walked from A with the default max_depth 3 (fuel 4).  The walk terminates
(the function is total by the depth bound), but because a sitemap is added
to the visited set only after its children are processed, both A and B
are fetched twice, refuting the at-most-once part of the claim. -/
theorem C3_cycle_refetch_eval :
    (SitemapProcessor.procSitemap cycFetch 4 "https://a.example/sa.xml" []).trace =
      ["https://a.example/sa.xml", "https://a.example/sb.xml",
       "https://a.example/sa.xml", "https://a.example/sb.xml"] ∧
    (SitemapProcessor.procSitemap cycFetch 4
      "https://a.example/sa.xml" []).trace.count "https://a.example/sa.xml" = 2 ∧
    1 < (SitemapProcessor.procSitemap cycFetch 4
      "https://a.example/sa.xml" []).trace.count "https://a.example/sa.xml" := by
  refine ⟨by decide, by decide, by decide⟩

/-! ## C4: extraction eligibility requires non-null, not non-empty text -/

/-- C4 counterexample: a row whose parsed_text is the empty string (not
NULL) satisfies the SELECT predicate of get_pending_recipes and is
claimed, refuting the non-empty part of the claim. -/
theorem C4_empty_text_claimed :
    RecipeExtractor.get_pending_recipes [emptyTextRow] 32 = [emptyTextRow] ∧
    emptyTextRow.parsed_text = some "" ∧
    ((RecipeExtractor.get_pending_recipes [emptyTextRow] 32).all
      (fun r => r.parsed_text != some "")) = false := by
  refine ⟨by decide, by decide, by decide⟩

/-- C4 as amended: every row claimed by the extraction phase satisfies
is_recipe true, crawl_status complete, parsed_text IS NOT NULL (possibly
empty) and llm_status pending. -/
theorem C4_claim_time_conditions (store : List UrlRow) (b : Nat) (r : UrlRow)
    (h : r ∈ RecipeExtractor.get_pending_recipes store b) :
    r.is_recipe = some true ∧ r.crawl_status = "complete" ∧
      r.parsed_text ≠ none ∧ r.llm_status = "pending" := by
  unfold RecipeExtractor.get_pending_recipes at h
  have h1 := (List.take_sublist _ _).subset h
  have h2 := mem_sortDesc.mp h1
  have h3 := (List.mem_filter.mp h2).2
  exact of_decide_eq_true h3

/-- Witness for C4: the amended conditions hold for a concretely claimed
row. -/
theorem C4_claim_time_conditions_witness :
    crawledRow ∈ RecipeExtractor.get_pending_recipes [crawledRow] 8 ∧
    (crawledRow.is_recipe = some true ∧ crawledRow.crawl_status = "complete" ∧
      crawledRow.parsed_text ≠ none ∧ crawledRow.llm_status = "pending") :=
  ⟨by decide, C4_claim_time_conditions [crawledRow] 8 crawledRow (by decide)⟩

/-! ## C5: the extraction retry loop never retries -/

/-- C5, evaluated at the failing input: an LLM that raises on every call.
The decorated extract_recipe makes exactly one attempt (the internal
except swallows the exception, so tenacity sees a normal return), and the
run loop records the fixed string OpenAI extraction failed instead of the
stringified error boom. -/
theorem C5_no_retry_fixed_reason_eval :
    (RecipeExtractor.extract_recipe llmBoom 1).1 = .ok (1, none) ∧
    (RecipeExtractor.extract_recipe llmBoom 1).2 = 1 ∧
    (RecipeExtractor.extract_recipe llmBoom 1).2 ≠ 3 ∧
    (RecipeExtractor.settle_result [pendingRow] emptyRecipeDB (1, none)).1.map
      UrlRow.llm_status = ["failed"] ∧
    (RecipeExtractor.settle_result [pendingRow] emptyRecipeDB (1, none)).1.map
      UrlRow.llm_failure_reason = [some "OpenAI extraction failed"] ∧
    some "OpenAI extraction failed" ≠ some "boom" := by
  refine ⟨rfl, by decide, by decide, by decide, by decide, by decide⟩

/-! ## C6: ingredient replacement skips the delete for empty lists -/

/-- C6 counterexample: re-extraction of dish 1 succeeding with an empty
ingredient list leaves the three prior ingredient rows in place, so the
resulting child rows are not the ingredients of the new extraction. -/
theorem C6_empty_list_leftover :
    emptyIngDish.ingredients = [] ∧
    ((RecipeExtractor.save_dish threeIngDB 1 emptyIngDish).dish_ingredients.filter
      (fun r => r.dish_id == 1)).length = 3 ∧
    ((RecipeExtractor.save_dish threeIngDB 1 emptyIngDish).dish_ingredients.filter
      (fun r => r.dish_id == 1)).length ≠ 0 := by
  refine ⟨by decide, by decide, by decide⟩

/-- C6 as amended: when the newly extracted ingredient list is non-empty,
save_dish replaces the ingredient rows of the dish by exactly the new
ones (delete-then-insert) and leaves the rows of other dishes unchanged;
only an empty new list leaves prior rows in place. -/
theorem C6_replace_nonempty (db : RecipeDB) (rid : Nat) (dish : DishModel)
    (h : dish.ingredients ≠ []) :
    ((RecipeExtractor.save_dish db rid dish).dish_ingredients.filter
      (fun r => r.dish_id == rid)) =
        dish.ingredients.map (RecipeExtractor.mkIngRow rid) ∧
    ((RecipeExtractor.save_dish db rid dish).dish_ingredients.filter
      (fun r => r.dish_id ≠ rid)) =
        db.dish_ingredients.filter (fun r => r.dish_id ≠ rid) := by
  have hing : (RecipeExtractor.save_dish db rid dish).dish_ingredients =
      (db.dish_ingredients.filter (fun r => r.dish_id ≠ rid)) ++
        dish.ingredients.map (RecipeExtractor.mkIngRow rid) := by
    unfold RecipeExtractor.save_dish
    cases dish.attributes <;> simp [h]
  rw [hing]
  constructor
  · rw [List.filter_append]
    have h1 : (db.dish_ingredients.filter (fun r => r.dish_id ≠ rid)).filter
        (fun r => r.dish_id == rid) = [] := by
      rw [List.filter_filter]
      apply List.filter_eq_nil_iff.mpr
      intro a _
      by_cases hd : a.dish_id = rid <;> simp [hd]
    have h2 : (dish.ingredients.map (RecipeExtractor.mkIngRow rid)).filter
        (fun r => r.dish_id == rid) = dish.ingredients.map (RecipeExtractor.mkIngRow rid) := by
      apply List.filter_eq_self.mpr
      intro a ha
      rcases List.mem_map.mp ha with ⟨i, _, hi⟩
      subst hi
      simp [RecipeExtractor.mkIngRow]
    rw [h1, h2, List.nil_append]
  · rw [List.filter_append]
    have h1 : (db.dish_ingredients.filter (fun r => r.dish_id ≠ rid)).filter
        (fun r => r.dish_id ≠ rid) =
          db.dish_ingredients.filter (fun r => r.dish_id ≠ rid) := by
      rw [List.filter_filter]
      apply List.filter_congr
      intro a _
      cases hd : decide (a.dish_id ≠ rid) <;> simp_all
    have h2 : (dish.ingredients.map (RecipeExtractor.mkIngRow rid)).filter
        (fun r => r.dish_id ≠ rid) = [] := by
      apply List.filter_eq_nil_iff.mpr
      intro a ha
      rcases List.mem_map.mp ha with ⟨i, _, hi⟩
      subst hi
      simp [RecipeExtractor.mkIngRow]
    rw [h1, h2, List.append_nil]

/-- Witness for C6: a dish with three existing ingredient children
re-extracted with two new ingredients ends with exactly those two rows. -/
theorem C6_replace_nonempty_witness :
    twoIngDish.ingredients ≠ [] ∧
    ((RecipeExtractor.save_dish threeIngDB 1 twoIngDish).dish_ingredients.filter
      (fun r => r.dish_id == 1)) =
        twoIngDish.ingredients.map (RecipeExtractor.mkIngRow 1) ∧
    ((RecipeExtractor.save_dish threeIngDB 1 twoIngDish).dish_ingredients.filter
      (fun r => r.dish_id == 1)).length = 2 :=
  ⟨by decide, (C6_replace_nonempty threeIngDB 1 twoIngDish (by decide)).1, by decide⟩

/-! ## C7: the walker is depth-first, not breadth-first -/

/-- The trace accumulated by the walk loop extends the trace of its
accumulator: everything already fetched stays in front. -/
theorem procChildren_trace_extends
    (fetch : String → Option SitemapProcessor.SitemapContent) (fuel : Nat)
    (ss : List String) (acc : SitemapProcessor.WalkResult) :
    ∃ t, (SitemapProcessor.procChildren fetch fuel ss acc).trace = acc.trace ++ t := by
  induction ss generalizing acc with
  | nil => exact ⟨[], by simp [SitemapProcessor.procChildren]⟩
  | cons s rest ih =>
    have hstep : SitemapProcessor.procChildren fetch fuel (s :: rest) acc =
        SitemapProcessor.procChildren fetch fuel rest
          ⟨acc.urls ++ (SitemapProcessor.procSitemap fetch fuel s acc.visited).urls,
           (SitemapProcessor.procSitemap fetch fuel s acc.visited).visited,
           acc.trace ++ (SitemapProcessor.procSitemap fetch fuel s acc.visited).trace⟩ := rfl
    rcases ih ⟨acc.urls ++ (SitemapProcessor.procSitemap fetch fuel s acc.visited).urls,
      (SitemapProcessor.procSitemap fetch fuel s acc.visited).visited,
      acc.trace ++ (SitemapProcessor.procSitemap fetch fuel s acc.visited).trace⟩ with ⟨t, ht⟩
    exact ⟨(SitemapProcessor.procSitemap fetch fuel s acc.visited).trace ++ t,
      by rw [hstep, ht]; simp⟩

/-- Unfolding equation of the recursive walk at positive fuel, with the
inner loop expressed through procChildren. -/
theorem procSitemap_succ (fetch : String → Option SitemapProcessor.SitemapContent)
    (fuel : Nat) (url : String) (visited : List String) :
    SitemapProcessor.procSitemap fetch (fuel + 1) url visited =
      (if url ∈ visited then ⟨[], visited, []⟩
       else
        match fetch url with
        | none => ⟨[], visited, [url]⟩
        | some content =>
          let ex := SitemapProcessor.extract_from_sitemap content url
          let r := SitemapProcessor.procChildren fetch fuel ex.1 ⟨ex.2, visited, [url]⟩
          ⟨r.urls, url :: r.visited, r.trace⟩ : SitemapProcessor.WalkResult) := rfl

/-- A fetched sitemap heads the trace of its own walk: the trace is empty
(skipped or out of budget) or starts with the sitemap itself. -/
theorem procSitemap_trace_head
    (fetch : String → Option SitemapProcessor.SitemapContent) (fuel : Nat)
    (url : String) (visited : List String) :
    (SitemapProcessor.procSitemap fetch fuel url visited).trace = [] ∨
      ∃ t, (SitemapProcessor.procSitemap fetch fuel url visited).trace = url :: t := by
  cases fuel with
  | zero => exact Or.inl rfl
  | succ fuel =>
    rw [procSitemap_succ]
    by_cases hv : url ∈ visited
    · simp [hv]
    · rw [if_neg hv]
      cases hf : fetch url with
      | none => exact Or.inr ⟨[], rfl⟩
      | some content =>
        rcases procChildren_trace_extends fetch fuel
          (SitemapProcessor.extract_from_sitemap content url).1
          ⟨(SitemapProcessor.extract_from_sitemap content url).2, visited, [url]⟩ with ⟨t, ht⟩
        exact Or.inr ⟨t, by simp [ht]⟩

/-- C7 counterexample: in the tree where the root lists A and B and A
lists A1, the fetch order is root, A, A1, B — the depth-2 sitemap A1 is
fetched before the depth-1 sitemap B, so depth levels are not expanded
breadth-first. -/
theorem C7_bfs_counterexample :
    (SitemapProcessor.procSitemap treeFetch 4 "root" []).trace =
      ["root", "A", "A1", "B"] ∧
    (SitemapProcessor.procSitemap treeFetch 4 "root" []).trace.indexOf "A1" <
      (SitemapProcessor.procSitemap treeFetch 4 "root" []).trace.indexOf "B" := by
  refine ⟨by decide, by decide⟩

/-- C7 as amended: the walker processes sitemaps depth-first by recursion.
For a work list s :: rest, the full recursive trace of s (its entire
subtree) is fetched before anything contributed by rest, and each fetched
sitemap precedes everything discovered inside it. -/
theorem C7_depth_first_order :
    (∀ (fetch : String → Option SitemapProcessor.SitemapContent) (fuel : Nat)
        (s : String) (rest : List String) (acc : SitemapProcessor.WalkResult),
      ∃ t, (SitemapProcessor.procChildren fetch fuel (s :: rest) acc).trace =
        acc.trace ++ (SitemapProcessor.procSitemap fetch fuel s acc.visited).trace ++ t) ∧
    (∀ (fetch : String → Option SitemapProcessor.SitemapContent) (fuel : Nat)
        (url : String) (visited : List String),
      (SitemapProcessor.procSitemap fetch fuel url visited).trace = [] ∨
        ∃ t, (SitemapProcessor.procSitemap fetch fuel url visited).trace = url :: t) := by
  constructor
  · intro fetch fuel s rest acc
    have hstep : SitemapProcessor.procChildren fetch fuel (s :: rest) acc =
        SitemapProcessor.procChildren fetch fuel rest
          ⟨acc.urls ++ (SitemapProcessor.procSitemap fetch fuel s acc.visited).urls,
           (SitemapProcessor.procSitemap fetch fuel s acc.visited).visited,
           acc.trace ++ (SitemapProcessor.procSitemap fetch fuel s acc.visited).trace⟩ := rfl
    rcases procChildren_trace_extends fetch fuel rest
      ⟨acc.urls ++ (SitemapProcessor.procSitemap fetch fuel s acc.visited).urls,
       (SitemapProcessor.procSitemap fetch fuel s acc.visited).visited,
       acc.trace ++ (SitemapProcessor.procSitemap fetch fuel s acc.visited).trace⟩ with ⟨t, ht⟩
    exact ⟨t, by rw [hstep, ht]⟩
  · exact procSitemap_trace_head

/-! ## C9: a recipe substring in the URL path forces a true classification -/

/-- C9: for every URL whose parsed path contains the substring recipe
(case-insensitively, via the lower-casing the code applies), is_recipe
returns true whatever the title, description and content are. -/
theorem C9_recipe_in_path (url title description content : String)
    (pr : ParseResult)
    (hp : urlparseE (lowerL url.data) = .ok pr)
    (hr : hasSub "recipe".data (lowerL pr.path) = true) :
    Utils.is_recipe url title description content = .ok true := by
  unfold Utils.is_recipe
  rw [hp]
  simp [hr]

/-- Witness for C9: the URL of the specification example with empty
title, description and content classifies as a recipe. -/
theorem C9_recipe_in_path_witness :
    urlparseE (lowerL ("https://x.com/recipes/pie" : String).data) =
      .ok ⟨"https".data, "x.com".data, "/recipes/pie".data, [], [], []⟩ ∧
    hasSub "recipe".data (lowerL ("/recipes/pie" : String).data) = true ∧
    Utils.is_recipe "https://x.com/recipes/pie" "" "" "" = .ok true :=
  ⟨by decide, by decide,
    C9_recipe_in_path "https://x.com/recipes/pie" "" "" ""
      ⟨"https".data, "x.com".data, "/recipes/pie".data, [], [], []⟩
      (by decide) (by decide)⟩

/-! ## C10: an empty 200 body is handled as a fetch failure -/

/-- C10: a proxy answering HTTP 200 with an empty body makes
fetch_with_proxies return the empty string, and process_url treats any
falsy content — the empty string of a 200 response exactly like the None
of exhausted proxies — as the failure branch with reason fetch_failed. -/
theorem C10_empty_body_fetch_failed :
    (∀ (proxies : List (Option String × String))
        (net : String → String → Utils.HttpResult)
        (parse : String → Except String (String × String × String))
        (r : UrlRow) (pl : Option String),
      Utils.fetch_with_proxies proxies net r.url = (some "", pl) →
        ContentProcessor.process_url proxies net parse r =
          (r.id, none, some "fetch_failed", pl)) ∧
    (∀ (proxies : List (Option String × String))
        (net : String → String → Utils.HttpResult)
        (parse : String → Except String (String × String × String))
        (r : UrlRow) (pl : Option String),
      Utils.fetch_with_proxies proxies net r.url = (none, pl) →
        ContentProcessor.process_url proxies net parse r =
          (r.id, none, some "fetch_failed", pl)) ∧
    (∀ (purl : String) (label : String) (rest : List (Option String × String))
        (net : String → String → Utils.HttpResult) (url : String),
      purl ≠ "" → net purl url = .resp 200 "" →
        Utils.fetch_with_proxies ((some purl, label) :: rest) net url =
          (some "", some label)) := by
  refine ⟨?_, ?_, ?_⟩
  · intro proxies net parse r pl h
    unfold ContentProcessor.process_url
    rw [h]
    simp
  · intro proxies net parse r pl h
    unfold ContentProcessor.process_url
    rw [h]
  · intro purl label rest net url hne hnet
    simp [Utils.fetch_with_proxies, hne, hnet]

/-- Witness for C10: on the configured proxy list with a network whose
responses are all empty 200s, the datacenter proxy yields the empty body
and the row lands in the failure branch with reason fetch_failed. -/
theorem C10_empty_body_fetch_failed_witness :
    Utils.fetch_with_proxies demoProxies netEmpty200 pendingRow.url =
      (some "", some "datacenter") ∧
    ContentProcessor.process_url demoProxies netEmpty200 parseUnused pendingRow =
      (1, none, some "fetch_failed", some "datacenter") :=
  ⟨by decide,
    C10_empty_body_fetch_failed.1 demoProxies netEmpty200 parseUnused pendingRow
      (some "datacenter") (by decide)⟩

/-! ## C8 groundwork: character- and list-level lemmas -/

theorem toNat_ofNat_small {n : Nat} (h : n < 55296) : (Char.ofNat n).toNat = n := by
  simp [Char.ofNat, Nat.isValidChar, h, Char.ofNatAux, Char.toNat, UInt32.toNat]

theorem pyLower_idem (c : Char) : pyLower (pyLower c) = pyLower c := by
  unfold pyLower
  by_cases h : 65 ≤ c.toNat ∧ c.toNat ≤ 90
  · have h2 : (Char.ofNat (c.toNat + 32)).toNat = c.toNat + 32 :=
      toNat_ofNat_small (by omega)
    simp [h, h2]
    omega
  · simp [h]

theorem pyLower_eq_iff {s : Char} (hs1 : ¬ (65 ≤ s.toNat ∧ s.toNat ≤ 90))
    (hs2 : ¬ (97 ≤ s.toNat ∧ s.toNat ≤ 122)) (c : Char) :
    pyLower c = s ↔ c = s := by
  constructor
  · intro h
    unfold pyLower at h
    by_cases hc : 65 ≤ c.toNat ∧ c.toNat ≤ 90
    · rw [if_pos hc] at h
      exfalso
      apply hs2
      rw [← h]
      have h2 : (Char.ofNat (c.toNat + 32)).toNat = c.toNat + 32 :=
        toNat_ofNat_small (by omega)
      rw [h2]
      omega
    · rwa [if_neg hc] at h
  · intro h
    subst h
    unfold pyLower
    rw [if_neg hs1]

theorem mem_lowerL_fixed {c : Char} {l : List Char} (h : c ∈ lowerL l) :
    pyLower c = c := by
  rcases List.mem_map.mp h with ⟨d, _, hd⟩
  rw [← hd]
  exact pyLower_idem d

theorem lowerL_eq_self_of {l : List Char} (h : ∀ c ∈ l, pyLower c = c) :
    lowerL l = l := by
  unfold lowerL
  rw [List.map_congr_left h]
  simp

theorem lowerL_idem (l : List Char) : lowerL (lowerL l) = lowerL l :=
  lowerL_eq_self_of (fun _ hc => mem_lowerL_fixed hc)

theorem dropWhile_idem {p : Char → Bool} (l : List Char) :
    (l.dropWhile p).dropWhile p = l.dropWhile p := by
  induction l with
  | nil => rfl
  | cons a t ih =>
    by_cases h : p a
    · simp [List.dropWhile, h, ih]
    · simp [List.dropWhile, h]

theorem rstrip_idem (l : List Char) :
    rstripSlash (rstripSlash l) = rstripSlash l := by
  unfold rstripSlash
  rw [List.reverse_reverse, dropWhile_idem]

theorem rstrip_lowerL_comm (l : List Char) :
    rstripSlash (lowerL l) = lowerL (rstripSlash l) := by
  unfold rstripSlash lowerL
  have hpred : ((fun c => decide (c = '/')) ∘ pyLower) =
      (fun c : Char => decide (c = '/')) := by
    funext c
    show decide (pyLower c = '/') = decide (c = '/')
    exact decide_eq_decide.mpr (pyLower_eq_iff (by decide) (by decide) c)
  rw [← List.map_reverse, List.dropWhile_map, hpred, ← List.map_reverse]

theorem rstrip_decomp (l : List Char) :
    ∃ k, l = rstripSlash l ++ List.replicate k '/' := by
  refine ⟨(l.reverse.takeWhile (fun c => c = '/')).length, ?_⟩
  unfold rstripSlash
  conv_lhs => rw [← List.reverse_reverse l,
    ← List.takeWhile_append_dropWhile (p := fun c => c = '/') (l := l.reverse)]
  rw [List.reverse_append]
  congr 1
  have hall : ∀ c ∈ l.reverse.takeWhile (fun c => c = '/'), c = '/' := by
    intro c hc
    have := List.mem_takeWhile_imp hc
    simpa using this
  rw [List.eq_replicate_of_mem hall]
  simp

theorem breakAtChar_eq_none {c : Char} {l : List Char} :
    breakAtChar c l = none ↔ c ∉ l := by
  induction l with
  | nil => simp [breakAtChar]
  | cons x xs ih =>
    unfold breakAtChar
    by_cases h : x = c
    · simp [h]
    · simp [h, ih]
      intro hc
      exact fun he => h he.symm

theorem breakAtChar_eq_some {c : Char} {l a b : List Char}
    (h : breakAtChar c l = some (a, b)) : l = a ++ c :: b ∧ c ∉ a := by
  induction l generalizing a b with
  | nil => simp [breakAtChar] at h
  | cons x xs ih =>
    simp only [breakAtChar] at h
    by_cases hx : x = c
    · rw [if_pos hx] at h
      injection h with h1
      injection h1 with ha hb
      subst ha
      subst hb
      subst hx
      exact ⟨rfl, by simp⟩
    · rw [if_neg hx] at h
      cases hb : breakAtChar c xs with
      | none => rw [hb] at h; simp at h
      | some p =>
        rw [hb] at h
        injection h with h1
        injection h1 with ha hbb
        subst ha
        subst hbb
        rcases ih (show breakAtChar c xs = some (p.1, p.2) by rw [hb]) with ⟨h1, h2⟩
        constructor
        · rw [List.cons_append, ← h1]
        · simp [h2]
          exact fun he => hx he.symm

theorem breakAtChar_append (c : Char) (x y : List Char) :
    breakAtChar c (x ++ y) =
      (match breakAtChar c x with
       | some p => some (p.1, p.2 ++ y)
       | none => (breakAtChar c y).map (fun p => (x ++ p.1, p.2))) := by
  induction x with
  | nil =>
    simp only [List.nil_append, breakAtChar]
    cases hy : breakAtChar c y with
    | none => simp
    | some p => simp
  | cons u us ih =>
    rw [List.cons_append]
    simp only [breakAtChar]
    by_cases hu : u = c
    · simp [hu]
    · rw [if_neg hu, if_neg hu, ih]
      cases hb : breakAtChar c us with
      | none =>
        cases hy : breakAtChar c y with
        | none => simp
        | some q => simp
      | some p => simp

theorem breakAtChar_append_some {c : Char} {x a b : List Char} (y : List Char)
    (h : breakAtChar c x = some (a, b)) :
    breakAtChar c (x ++ y) = some (a, b ++ y) := by
  rw [breakAtChar_append, h]

theorem breakAtChar_append_none {c : Char} {x : List Char} (y : List Char)
    (h : c ∉ x) :
    breakAtChar c (x ++ y) =
      (breakAtChar c y).map (fun p => (x ++ p.1, p.2)) := by
  rw [breakAtChar_append, breakAtChar_eq_none.mpr h]

theorem cutAtChar_not_mem {c : Char} {l : List Char} (h : c ∉ l) :
    cutAtChar c l = (l, []) := by
  unfold cutAtChar
  rw [breakAtChar_eq_none.mpr h]

theorem cutAtChar_fst_not_mem (c : Char) (l : List Char) :
    c ∉ (cutAtChar c l).1 := by
  unfold cutAtChar
  cases hb : breakAtChar c l with
  | none => exact breakAtChar_eq_none.mp hb
  | some p =>
    exact (breakAtChar_eq_some
      (show breakAtChar c l = some (p.1, p.2) by rw [hb])).2

theorem cutAtChar_fst_pre (c : Char) (l : List Char) :
    ∃ s, l = (cutAtChar c l).1 ++ s := by
  unfold cutAtChar
  cases hb : breakAtChar c l with
  | none => exact ⟨[], by simp⟩
  | some p =>
    exact ⟨c :: p.2, (breakAtChar_eq_some
      (show breakAtChar c l = some (p.1, p.2) by rw [hb])).1⟩

theorem mem_of_append_left {c : Char} {x s : List Char} {l : List Char}
    (hd : l = x ++ s) (h : c ∈ x) : c ∈ l := by
  rw [hd]
  exact List.mem_append_left s h

theorem takeWhile_all {p : Char → Bool} {l : List Char}
    (h : ∀ c ∈ l, p c = true) : l.takeWhile p = l := by
  induction l with
  | nil => rfl
  | cons a t ih =>
    rw [List.takeWhile_cons, if_pos (h a (by simp))]
    rw [ih (fun c hc => h c (by simp [hc]))]

theorem dropWhile_all {p : Char → Bool} {l : List Char}
    (h : ∀ c ∈ l, p c = true) : l.dropWhile p = [] := by
  induction l with
  | nil => rfl
  | cons a t ih =>
    rw [List.dropWhile_cons, if_pos (h a (by simp))]
    exact ih (fun c hc => h c (by simp [hc]))

theorem takeWhile_cons_false {p : Char → Bool} {a : Char} (l : List Char)
    (h : p a = false) : (a :: l).takeWhile p = [] := by
  rw [List.takeWhile_cons, h]
  simp

theorem dropWhile_cons_false {p : Char → Bool} {a : Char} (l : List Char)
    (h : p a = false) : (a :: l).dropWhile p = a :: l := by
  rw [List.dropWhile_cons, h]
  simp

theorem takeWhile_append_all {p : Char → Bool} {x y : List Char}
    (hx : ∀ c ∈ x, p c = true) :
    (x ++ y).takeWhile p = x ++ y.takeWhile p := by
  rw [List.takeWhile_append, takeWhile_all hx]
  simp

theorem dropWhile_append_all {p : Char → Bool} {x y : List Char}
    (hx : ∀ c ∈ x, p c = true) :
    (x ++ y).dropWhile p = y.dropWhile p := by
  rw [List.dropWhile_append, dropWhile_all hx]
  simp

theorem mem_reverse_takeWhile {c : Char} {p : Char → Bool} {l : List Char}
    (h : c ∈ (l.reverse.takeWhile p).reverse) : c ∈ l := by
  rw [List.mem_reverse] at h
  have := (List.takeWhile_sublist p (l := l.reverse)).subset h
  rwa [List.mem_reverse] at this

theorem splitparams_no_semi {path : List Char} (h : ';' ∉ path) :
    splitparams path = (path, []) := by
  unfold splitparams
  by_cases hs : path.contains '/'
  · rw [if_pos hs]
    have hseg : ';' ∉ (path.reverse.takeWhile (fun c => c ≠ '/')).reverse :=
      fun hc => h (mem_reverse_takeWhile hc)
    rw [breakAtChar_eq_none.mpr hseg]
  · rw [if_neg hs, breakAtChar_eq_none.mpr h]

/-! ## C8 groundwork: appending trailing slashes commutes with the parse
stages, which drives the fallback (error) case of idempotence -/

theorem takeWhile_append_right_nil {p : Char → Bool} {x y : List Char}
    (hy : y.takeWhile p = []) : (x ++ y).takeWhile p = x.takeWhile p := by
  rw [List.takeWhile_append]
  by_cases h : (x.takeWhile p).length = x.length
  · rw [if_pos h, hy, List.append_nil]
    exact ((List.takeWhile_sublist p).eq_of_length h).symm
  · rw [if_neg h]

theorem takeWhile_notDelim_replicate (k : Nat) :
    (List.replicate k '/').takeWhile notDelim = [] := by
  cases k with
  | zero => rfl
  | succ k =>
    rw [List.replicate_succ]
    exact takeWhile_cons_false _ (by decide)

theorem filter_unsafe_replicate (k : Nat) :
    (List.replicate k '/').filter (fun c => !isUnsafeChar c) =
      List.replicate k '/' := by
  apply List.filter_eq_self.mpr
  intro a ha
  rw [(List.mem_replicate.mp ha).2]
  decide

theorem dropWhile_c0_replicate (k : Nat) :
    (List.replicate k '/').dropWhile isC0OrSpace = List.replicate k '/' := by
  cases k with
  | zero => rfl
  | succ k =>
    rw [List.replicate_succ]
    exact dropWhile_cons_false _ (by decide)

theorem pre_append_rep (x : List Char) (k : Nat) :
    preprocessUrl (x ++ List.replicate k '/') =
      preprocessUrl x ++ List.replicate k '/' := by
  unfold preprocessUrl
  rw [List.dropWhile_append]
  by_cases h : (x.dropWhile isC0OrSpace).isEmpty
  · rw [if_pos h, dropWhile_c0_replicate, filter_unsafe_replicate]
    have hx : x.dropWhile isC0OrSpace = [] := by
      cases hx : x.dropWhile isC0OrSpace with
      | nil => rfl
      | cons a t => rw [hx] at h; simp [List.isEmpty] at h
    rw [hx]
    simp
  · rw [if_neg h, List.filter_append, filter_unsafe_replicate]

theorem schemeSplit_append_rep (x : List Char) (k : Nat) :
    schemeSplit (x ++ List.replicate k '/') =
      ((schemeSplit x).1, (schemeSplit x).2 ++ List.replicate k '/') := by
  unfold schemeSplit
  rw [breakAtChar_append]
  cases hb : breakAtChar ':' x with
  | none =>
    have hrep : breakAtChar ':' (List.replicate k '/') = none := by
      apply breakAtChar_eq_none.mpr
      intro hc
      exact absurd (List.mem_replicate.mp hc).2 (by decide)
    rw [hrep]
    rfl
  | some p =>
    obtain ⟨p1, p2⟩ := p
    cases p1 with
    | nil => rfl
    | cons b bs =>
      dsimp only
      split
      · rfl
      · rfl

theorem urlsplitCore_error_iff (x : List Char) :
    (∃ e, urlsplitCore x = .error e) ↔
      ((schemeSplit x).2.take 2 = ['/', '/'] ∧
        badNetlocBrackets (((schemeSplit x).2.drop 2).takeWhile notDelim) = true) := by
  unfold urlsplitCore splitAfterScheme mkSplit
  by_cases h2 : (schemeSplit x).2.take 2 = ['/', '/']
  · rw [if_pos h2]
    by_cases hb : badNetlocBrackets (((schemeSplit x).2.drop 2).takeWhile notDelim)
    · rw [if_pos hb]
      simp [h2, hb]
    · rw [if_neg hb]
      simp [h2, hb]
  · rw [if_neg h2]
    rw [if_neg (show ¬ (badNetlocBrackets [] = true) by decide)]
    simp [h2]

theorem takeWhile_notDelim_all_slash {l : List Char} (h : ∀ c ∈ l, c = '/') :
    l.takeWhile notDelim = [] := by
  cases l with
  | nil => rfl
  | cons a t =>
    have ha : a = '/' := h a (by simp)
    exact takeWhile_cons_false _ (by rw [ha]; decide)

theorem err_append_rep {x : List Char} {k : Nat}
    (h : ∃ e, urlsplitCore (x ++ List.replicate k '/') = .error e) :
    ∃ e, urlsplitCore x = .error e := by
  rw [urlsplitCore_error_iff] at h ⊢
  rw [schemeSplit_append_rep] at h
  dsimp only at h
  rcases h with ⟨h1, h2⟩
  cases k with
  | zero =>
    rw [List.replicate, List.append_nil] at h1 h2
    exact ⟨h1, h2⟩
  | succ k =>
    cases hr : (schemeSplit x).2 with
    | nil =>
      exfalso
      rw [hr, List.nil_append] at h2
      rw [takeWhile_notDelim_all_slash (fun c hc =>
        (List.mem_replicate.mp (List.mem_of_mem_drop hc)).2)] at h2
      exact absurd h2 (by decide)
    | cons c1 r1 =>
      cases hr2 : r1 with
      | nil =>
        exfalso
        rw [hr, hr2] at h2
        rw [List.replicate_succ] at h2
        have hd : ([c1] ++ '/' :: List.replicate k '/').drop 2 =
            List.replicate k '/' := by simp
        rw [hd] at h2
        rw [takeWhile_notDelim_all_slash (fun c hc =>
          (List.mem_replicate.mp hc).2)] at h2
        exact absurd h2 (by decide)
      | cons c2 t =>
        rw [hr, hr2] at h1 h2
        have ht1 : ((c1 :: c2 :: t) ++ List.replicate (k + 1) '/').take 2 =
            [c1, c2] := by simp
        have ht2 : (c1 :: c2 :: t).take 2 = [c1, c2] := by simp
        have hd1 : ((c1 :: c2 :: t) ++ List.replicate (k + 1) '/').drop 2 =
            t ++ List.replicate (k + 1) '/' := by simp
        have hd2 : (c1 :: c2 :: t).drop 2 = t := by simp
        rw [ht1] at h1
        rw [hd1] at h2
        rw [takeWhile_append_right_nil (takeWhile_notDelim_replicate (k + 1))] at h2
        rw [ht2, hd2]
        exact ⟨h1, h2⟩

/-! ## C8 groundwork: facts about a successful parse -/

theorem dropWhile_head_false {p : Char → Bool} {l t : List Char} {a : Char}
    (h : l.dropWhile p = a :: t) : p a = false := by
  induction l with
  | nil => simp at h
  | cons u us ih =>
    rw [List.dropWhile_cons] at h
    by_cases hu : p u
    · rw [if_pos hu] at h
      exact ih h
    · rw [if_neg hu] at h
      injection h with h1 _
      rw [← h1]
      exact Bool.not_eq_true _ ▸ eq_false_of_ne_true hu

theorem schemeSplit_snd_subset (x : List Char) : (schemeSplit x).2 ⊆ x := by
  unfold schemeSplit
  cases hb : breakAtChar ':' x with
  | none => exact fun c hc => hc
  | some p =>
    obtain ⟨p1, p2⟩ := p
    have hx := (breakAtChar_eq_some
      (show breakAtChar ':' x = some (p1, p2) by rw [hb])).1
    cases p1 with
    | nil => exact fun c hc => hc
    | cons b bs =>
      dsimp only
      split
      · intro c hc
        rw [hx]
        exact List.mem_append_right _ (by simp [hc])
      · exact fun c hc => hc

theorem pre_head {l a s : List Char} (h : l = a ++ s) (ha : a ≠ []) :
    l.head? = a.head? := by
  subst h
  cases a with
  | nil => exact absurd rfl ha
  | cons u t => rfl

theorem pre_subset {l a s : List Char} (h : l = a ++ s) : a ⊆ l := by
  subst h
  exact fun c hc => List.mem_append_left _ hc

theorem notDelim_false_cases {a : Char} (h : notDelim a = false) :
    a = '/' ∨ a = '?' ∨ a = '#' := by
  by_cases h1 : a = '/'
  · exact Or.inl h1
  by_cases h2 : a = '?'
  · exact Or.inr (Or.inl h2)
  by_cases h3 : a = '#'
  · exact Or.inr (Or.inr h3)
  exfalso
  unfold notDelim at h
  simp [h1, h2, h3] at h

theorem mkSplit_ok_facts {s netl rest2 : List Char} {r : SplitResult}
    (h : mkSplit s netl rest2 = .ok r) :
    r.scheme = s ∧ r.netloc = netl ∧
    badNetlocBrackets netl = false ∧
    '#' ∉ r.path ∧ '?' ∉ r.path ∧
    (∃ s1, rest2 = r.path ++ s1) := by
  unfold mkSplit at h
  by_cases hb : badNetlocBrackets netl
  · rw [if_pos hb] at h
    exact absurd h (by simp)
  · rw [if_neg hb] at h
    injection h with h1
    subst h1
    refine ⟨rfl, rfl, eq_false_of_ne_true hb, ?_, ?_, ?_⟩
    · intro hc
      have hsub := pre_subset (cutAtChar_fst_pre '?' (cutAtChar '#' rest2).1).choose_spec
      exact cutAtChar_fst_not_mem '#' rest2 (hsub hc)
    · exact cutAtChar_fst_not_mem '?' (cutAtChar '#' rest2).1
    · rcases cutAtChar_fst_pre '#' rest2 with ⟨s1, hs1⟩
      rcases cutAtChar_fst_pre '?' (cutAtChar '#' rest2).1 with ⟨s2, hs2⟩
      refine ⟨s2 ++ s1, ?_⟩
      show rest2 = (cutAtChar '?' (cutAtChar '#' rest2).1).1 ++ (s2 ++ s1)
      rw [← List.append_assoc, ← hs2, ← hs1]

theorem path_shape_of_rest2 {rest2 path : List Char}
    (hpre : ∃ s1, rest2 = path ++ s1)
    (hhead : rest2 = [] ∨ ∃ a t, rest2 = a :: t ∧ notDelim a = false)
    (hsharp : '#' ∉ path) (hq : '?' ∉ path) :
    path = [] ∨ path.head? = some '/' := by
  rcases hpre with ⟨s1, hs1⟩
  cases path with
  | nil => exact Or.inl rfl
  | cons p0 pt =>
    rcases hhead with hnil | ⟨a, t, hat, hnd⟩
    · rw [hnil] at hs1
      simp at hs1
    · right
      rw [hat] at hs1
      injection hs1 with h0 _
      rcases notDelim_false_cases hnd with h | h | h
      · have hp0 : p0 = '/' := by rw [← h0]; exact h
        rw [hp0]
        rfl
      · exfalso
        rw [h] at h0
        exact hq (by rw [h0]; simp)
      · exfalso
        rw [h] at h0
        exact hsharp (by rw [h0]; simp)

theorem urlsplitCore_ok_facts {x : List Char} {r : SplitResult}
    (h : urlsplitCore x = .ok r) :
    (∀ c ∈ r.netloc, notDelim c = true) ∧
    badNetlocBrackets r.netloc = false ∧
    '#' ∉ r.path ∧ '?' ∉ r.path ∧
    r.netloc ⊆ x ∧ r.path ⊆ x ∧
    (r.netloc ≠ [] → (r.path = [] ∨ r.path.head? = some '/')) := by
  unfold urlsplitCore splitAfterScheme at h
  by_cases h2 : (schemeSplit x).2.take 2 = ['/', '/']
  · rw [if_pos h2] at h
    rcases mkSplit_ok_facts h with ⟨_, hn, hbad, hsharp, hq, hpre⟩
    have hsnd := schemeSplit_snd_subset x
    have hdropsub : ((schemeSplit x).2.drop 2) ⊆ x :=
      fun c hc => hsnd ((List.drop_sublist 2 _).subset hc)
    have hrest2 : (((schemeSplit x).2.drop 2).dropWhile notDelim) ⊆ x :=
      fun c hc => hdropsub ((List.dropWhile_sublist notDelim).subset hc)
    refine ⟨?_, hn ▸ hbad, hsharp, hq, ?_, ?_, ?_⟩
    · intro c hc
      rw [hn] at hc
      exact List.mem_takeWhile_imp hc
    · intro c hc
      rw [hn] at hc
      exact hdropsub ((List.takeWhile_sublist notDelim).subset hc)
    · intro c hc
      rcases hpre with ⟨s1, hs1⟩
      exact hrest2 (pre_subset hs1 hc)
    · intro _
      apply path_shape_of_rest2 hpre _ hsharp hq
      cases hr2 : ((schemeSplit x).2.drop 2).dropWhile notDelim with
      | nil => exact Or.inl rfl
      | cons a t => exact Or.inr ⟨a, t, rfl, dropWhile_head_false hr2⟩
  · rw [if_neg h2] at h
    rcases mkSplit_ok_facts h with ⟨_, hn, hbad, hsharp, hq, hpre⟩
    have hsnd := schemeSplit_snd_subset x
    refine ⟨?_, hn ▸ hbad, hsharp, hq, ?_, ?_, ?_⟩
    · intro c hc
      rw [hn] at hc
      simp at hc
    · intro c hc
      rw [hn] at hc
      simp at hc
    · intro c hc
      rcases hpre with ⟨s1, hs1⟩
      exact hsnd (pre_subset hs1 hc)
    · intro hne
      exact absurd hn (by simpa using fun he => hne he)

/-! ## C8 groundwork: shape preservation by the slash stripping -/

theorem mem_rstrip {c : Char} {l : List Char} (h : c ∈ rstripSlash l) : c ∈ l := by
  rcases rstrip_decomp l with ⟨k, hk⟩
  exact pre_subset hk h

theorem rstrip_head (l : List Char) :
    rstripSlash l = [] ∨ (rstripSlash l).head? = l.head? := by
  cases h : rstripSlash l with
  | nil => exact Or.inl rfl
  | cons a t =>
    right
    rcases rstrip_decomp l with ⟨k, hk⟩
    rw [h] at hk
    rw [hk]
    rfl

theorem take2_shape {l : List Char} {a b : Char} (h : l.take 2 = [a, b]) :
    ∃ t, l = a :: b :: t := by
  cases l with
  | nil => simp at h
  | cons x xs =>
    cases xs with
    | nil => simp at h
    | cons y ys =>
      simp at h
      exact ⟨ys, by rw [h.1, h.2]⟩

theorem rstrip_take2_ne {l : List Char} (h : l.take 2 ≠ ['/', '/']) :
    (rstripSlash l).take 2 ≠ ['/', '/'] := by
  intro hc
  apply h
  rcases take2_shape hc with ⟨t, ht⟩
  rcases rstrip_decomp l with ⟨k, hk⟩
  rw [ht] at hk
  rw [hk]
  rfl

theorem mem_stripPath {c : Char} {p : List Char} (h : c ∈ stripPath p) : c ∈ p := by
  unfold stripPath at h
  by_cases hp : p ≠ ['/']
  · rw [if_pos hp] at h
    exact mem_rstrip h
  · rwa [if_neg hp] at h

theorem stripPath_head (p : List Char) :
    stripPath p = [] ∨ (stripPath p).head? = p.head? := by
  unfold stripPath
  by_cases hp : p ≠ ['/']
  · rw [if_pos hp]
    exact rstrip_head p
  · rw [if_neg hp]
    exact Or.inr rfl

theorem stripPath_take2_ne {p : List Char} (h : p.take 2 ≠ ['/', '/']) :
    (stripPath p).take 2 ≠ ['/', '/'] := by
  unfold stripPath
  by_cases hp : p ≠ ['/']
  · rw [if_pos hp]
    exact rstrip_take2_ne h
  · rw [if_neg hp]
    exact h

theorem rstrip_ne_slash_singleton (l : List Char) : rstripSlash l ≠ ['/'] := by
  intro hc
  unfold rstripSlash at hc
  have h1 : l.reverse.dropWhile (fun c => c = '/') = ['/'] := by
    have := congrArg List.reverse hc
    rwa [List.reverse_reverse] at this
  have := dropWhile_head_false h1
  simp at this

theorem stripPath_idem (p : List Char) : stripPath (stripPath p) = stripPath p := by
  by_cases hp : p = ['/']
  · rw [hp]
    rfl
  · have h1 : stripPath p = rstripSlash p := by
      unfold stripPath
      rw [if_pos hp]
    rw [h1]
    unfold stripPath
    rw [if_pos (rstrip_ne_slash_singleton p), rstrip_idem]

/-! ## C8 groundwork: re-parsing a normalized output -/

theorem preprocess_cons_fixed {a : Char} {t : List Char}
    (ha : isC0OrSpace a = false) (hu : ∀ c ∈ a :: t, isUnsafeChar c = false) :
    preprocessUrl (a :: t) = a :: t := by
  unfold preprocessUrl
  rw [dropWhile_cons_false _ ha]
  apply List.filter_eq_self.mpr
  intro c hc
  rw [hu c hc]
  rfl

theorem schemeSplit_https (X : List Char) :
    schemeSplit ("https:".data ++ X) = ("https".data, X) := by
  unfold schemeSplit
  have h5 : ("https:".data ++ X) = "https".data ++ (':' :: X) := rfl
  have hb : breakAtChar ':' ("https:".data ++ X) = some ("https".data, X) := by
    rw [h5, breakAtChar_append_none _ (by decide)]
    simp [breakAtChar]
  rw [hb]
  dsimp only
  rw [if_pos (by decide)]
  show (lowerL "https".data, X) = ("https".data, X)
  rw [show lowerL "https".data = "https".data from by decide]

theorem head_eq_some_cons {l : List Char} {a : Char} (h : l.head? = some a) :
    ∃ t, l = a :: t := by
  cases l with
  | nil => simp at h
  | cons x xs =>
    injection h with h1
    exact ⟨xs, by rw [h1]⟩

theorem lower_pre_https (X : List Char)
    (hfX : ∀ c ∈ X, pyLower c = c)
    (huX : ∀ c ∈ X, isUnsafeChar c = false) :
    lowerL ("https:".data ++ X) = "https:".data ++ X ∧
    preprocessUrl ("https:".data ++ X) = "https:".data ++ X := by
  constructor
  · apply lowerL_eq_self_of
    intro c hc
    rcases List.mem_append.mp hc with hc | hc
    · revert hc
      have : ∀ c ∈ ("https:".data : List Char), pyLower c = c := by decide
      exact this c
    · exact hfX c hc
  · show preprocessUrl ('h' :: ("ttps:".data ++ X)) = 'h' :: ("ttps:".data ++ X)
    apply preprocess_cons_fixed (by decide)
    intro c hc
    rcases List.mem_cons.mp hc with rfl | hc
    · decide
    rcases List.mem_append.mp hc with hc | hc
    · revert hc
      have : ∀ c ∈ ("ttps:".data : List Char), isUnsafeChar c = false := by decide
      exact this c
    · exact huX c hc

theorem normCore_reparse (n sp : List Char)
    (hn1 : ∀ c ∈ n, notDelim c = true)
    (hn2 : badNetlocBrackets n = false)
    (hf : ∀ c ∈ n ++ sp, pyLower c = c)
    (hu : ∀ c ∈ n ++ sp, isUnsafeChar c = false)
    (hsharp : '#' ∉ sp) (hq : '?' ∉ sp) (hsemi : ';' ∉ sp)
    (hsl : n ≠ [] → sp = [] ∨ sp.head? = some '/')
    (hstrip : stripPath sp = sp) :
    SitemapProcessor.normCore (unsplitHttps n sp) = unsplitHttps n sp := by
  by_cases hcond : n ≠ [] ∨ sp.take 2 = ['/', '/']
  · -- the authority branch of urlunparse: the output is https://<n><sp>
    have hshape : sp = [] ∨ ∃ t, sp = '/' :: t := by
      rcases hcond with hn | h2
      · rcases hsl hn with h | h
        · exact Or.inl h
        · exact Or.inr (head_eq_some_cons h)
      · rcases take2_shape h2 with ⟨t, ht⟩
        exact Or.inr ⟨'/' :: t, ht⟩
    have htw : sp.takeWhile notDelim = [] := by
      rcases hshape with h | ⟨t, h⟩
      · rw [h]
        rfl
      · rw [h]
        exact takeWhile_cons_false _ (by decide)
    have hdw : sp.dropWhile notDelim = sp := by
      rcases hshape with h | ⟨t, h⟩
      · rw [h]
        rfl
      · rw [h]
        exact dropWhile_cons_false _ (by decide)
    have hins : ¬ (sp ≠ [] ∧ sp.take 1 ≠ ['/']) := by
      rcases hshape with h | ⟨t, h⟩
      · intro hc
        exact hc.1 h
      · intro hc
        apply hc.2
        rw [h]
        rfl
    have hw : unsplitHttps n sp = "https:".data ++ ('/' :: '/' :: (n ++ sp)) := by
      unfold unsplitHttps
      rw [if_pos hcond, if_neg hins]
      rfl
    have hfX : ∀ c ∈ ('/' :: '/' :: (n ++ sp)), pyLower c = c := by
      intro c hc
      rcases List.mem_cons.mp hc with rfl | hc
      · decide
      rcases List.mem_cons.mp hc with rfl | hc
      · decide
      exact hf c hc
    have huX : ∀ c ∈ ('/' :: '/' :: (n ++ sp)), isUnsafeChar c = false := by
      intro c hc
      rcases List.mem_cons.mp hc with rfl | hc
      · decide
      rcases List.mem_cons.mp hc with rfl | hc
      · decide
      exact hu c hc
    rcases lower_pre_https _ hfX huX with ⟨hlow, hpre⟩
    have hsplit : urlsplitE (unsplitHttps n sp) =
        .ok ⟨"https".data, n, sp, [], []⟩ := by
      rw [hw]
      unfold urlsplitE
      rw [hpre]
      unfold urlsplitCore
      rw [schemeSplit_https]
      dsimp only
      unfold splitAfterScheme
      rw [if_pos (show ('/' :: '/' :: (n ++ sp)).take 2 = ['/', '/'] from rfl)]
      show mkSplit "https".data ((n ++ sp).takeWhile notDelim)
        ((n ++ sp).dropWhile notDelim) = _
      rw [takeWhile_append_all hn1, htw, List.append_nil,
        dropWhile_append_all hn1, hdw]
      unfold mkSplit
      rw [if_neg (by rw [hn2]; exact Bool.false_ne_true)]
      rw [cutAtChar_not_mem hsharp]
      dsimp only
      rw [cutAtChar_not_mem hq]
    have hne : unsplitHttps n sp ≠ [] := by
      rw [hw]
      simp
    have hparse : urlparseE (lowerL (unsplitHttps n sp)) =
        .ok ⟨"https".data, n, sp, [], [], []⟩ := by
      rw [hw, hlow, ← hw]
      unfold urlparseE
      rw [hsplit]
      dsimp only
      rw [splitparams_no_semi hsemi]
    unfold SitemapProcessor.normCore
    rw [if_neg hne, hparse]
    dsimp only
    rw [hstrip]
  · -- the plain branch: the output is https:<sp>
    push_neg at hcond
    obtain ⟨hn, h2⟩ := hcond
    have hw : unsplitHttps n sp = "https:".data ++ sp := by
      unfold unsplitHttps
      rw [if_neg]
      intro hc
      rcases hc with hc | hc
      · exact hc hn
      · exact h2 hc
    have hfX : ∀ c ∈ sp, pyLower c = c :=
      fun c hc => hf c (List.mem_append_right n hc)
    have huX : ∀ c ∈ sp, isUnsafeChar c = false :=
      fun c hc => hu c (List.mem_append_right n hc)
    rcases lower_pre_https sp hfX huX with ⟨hlow, hpre⟩
    have hsplit : urlsplitE (unsplitHttps n sp) =
        .ok ⟨"https".data, [], sp, [], []⟩ := by
      rw [hw]
      unfold urlsplitE
      rw [hpre]
      unfold urlsplitCore
      rw [schemeSplit_https]
      dsimp only
      unfold splitAfterScheme
      rw [if_neg h2]
      unfold mkSplit
      rw [if_neg (by decide)]
      rw [cutAtChar_not_mem hsharp]
      dsimp only
      rw [cutAtChar_not_mem hq]
    have hne : unsplitHttps n sp ≠ [] := by
      rw [hw]
      simp
    have hparse : urlparseE (lowerL (unsplitHttps n sp)) =
        .ok ⟨"https".data, [], sp, [], [], []⟩ := by
      rw [hw, hlow, ← hw]
      unfold urlparseE
      rw [hsplit]
      dsimp only
      rw [splitparams_no_semi hsemi]
    unfold SitemapProcessor.normCore
    rw [if_neg hne, hparse]
    dsimp only
    rw [hstrip, hn]

/-! ## C8: idempotence of URL normalization -/

theorem pre_subset_self (l : List Char) : preprocessUrl l ⊆ l := by
  intro c hc
  unfold preprocessUrl at hc
  exact (List.dropWhile_sublist _).subset ((List.filter_sublist _).subset hc)

theorem mem_pre_unsafe {c : Char} {l : List Char} (hc : c ∈ preprocessUrl l) :
    isUnsafeChar c = false := by
  unfold preprocessUrl at hc
  have := (List.mem_filter.mp hc).2
  simpa using this

theorem urlparseE_error_of {l : List Char} {e : String}
    (h : urlparseE l = .error e) : urlsplitE l = .error e := by
  unfold urlparseE at h
  cases h2 : urlsplitE l with
  | error a =>
    rw [h2] at h
    injection h with h1
    rw [h1]
  | ok r =>
    rw [h2] at h
    simp at h

theorem urlparseE_ok_inv {l : List Char} {p : ParseResult}
    (h : urlparseE l = .ok p) :
    ∃ r, urlsplitE l = .ok r ∧ p.netloc = r.netloc ∧
      p.path = (splitparams r.path).1 := by
  unfold urlparseE at h
  cases h2 : urlsplitE l with
  | error a =>
    rw [h2] at h
    simp at h
  | ok r =>
    rw [h2] at h
    injection h with h1
    rw [← h1]
    exact ⟨r, rfl, rfl, rfl⟩

/-- Idempotence of the utils.py normalize_url at the character-list level:
the fallback (the only reachable branch there) is idempotent. -/
theorem utils_normCore_idem (u : List Char) :
    Utils.normCore (Utils.normCore u) = Utils.normCore u := by
  by_cases hu : u = []
  · rw [hu]
    rfl
  · have h1 : Utils.normCore u = rstripSlash (lowerL u) := by
      unfold Utils.normCore
      rw [if_neg hu]
    rw [h1]
    by_cases hv : rstripSlash (lowerL u) = []
    · rw [hv]
      rfl
    · unfold Utils.normCore
      rw [if_neg hv]
      rw [lowerL_eq_self_of (fun c hc => mem_lowerL_fixed (mem_rstrip hc))]
      exact rstrip_idem _

/-- Idempotence of the sitemap_processor.py normalize_url at the
character-list level, for inputs free of semicolons (the params split of
urlparse re-activates on a semicolon once a trailing slash is stripped,
which is the counterexample). -/
theorem sitemap_normCore_idem (u : List Char) (husemi : ';' ∉ u) :
    SitemapProcessor.normCore (SitemapProcessor.normCore u) =
      SitemapProcessor.normCore u := by
  by_cases hu : u = []
  · rw [hu]
    rfl
  · have hlsemi : ';' ∉ lowerL u := by
      intro hc
      rcases List.mem_map.mp hc with ⟨d, hd, hdc⟩
      exact husemi (((pyLower_eq_iff (by decide) (by decide) d).mp hdc) ▸ hd)
    have hlfix : ∀ c ∈ lowerL u, pyLower c = c := fun c hc => mem_lowerL_fixed hc
    cases hp : urlparseE (lowerL u) with
    | error e =>
      have h1 : SitemapProcessor.normCore u = rstripSlash (lowerL u) := by
        unfold SitemapProcessor.normCore
        rw [if_neg hu, hp]
      rw [h1]
      by_cases hv : rstripSlash (lowerL u) = []
      · rw [hv]
        rfl
      · have hlowv : lowerL (rstripSlash (lowerL u)) = rstripSlash (lowerL u) :=
          lowerL_eq_self_of (fun c hc => hlfix c (mem_rstrip hc))
        have herr2 : urlsplitE (rstripSlash (lowerL u)) = .error "Invalid IPv6 URL" := by
          have he1 : urlsplitE (lowerL u) = .error e := urlparseE_error_of hp
          rcases rstrip_decomp (lowerL u) with ⟨k, hk⟩
          have he2 : ∃ e2, urlsplitCore (preprocessUrl (rstripSlash (lowerL u)) ++
              List.replicate k '/') = .error e2 := by
            refine ⟨e, ?_⟩
            rw [← pre_append_rep, ← hk]
            exact he1
          rcases err_append_rep he2 with ⟨e3, he3⟩
          have : e3 = "Invalid IPv6 URL" := by
            unfold urlsplitCore splitAfterScheme mkSplit at he3
            by_cases hb1 : (schemeSplit (preprocessUrl (rstripSlash (lowerL u)))).2.take 2 = ['/', '/']
            · rw [if_pos hb1] at he3
              by_cases hb2 : badNetlocBrackets
                  (((schemeSplit (preprocessUrl (rstripSlash (lowerL u)))).2.drop 2).takeWhile notDelim)
              · rw [if_pos hb2] at he3
                injection he3 with h4
                exact h4.symm
              · rw [if_neg hb2] at he3
                simp at he3
            · rw [if_neg hb1] at he3
              rw [if_neg (show ¬ (badNetlocBrackets [] = true) by decide)] at he3
              simp at he3
          rw [← this]
          exact he3
        have hperr : urlparseE (lowerL (rstripSlash (lowerL u))) =
            .error "Invalid IPv6 URL" := by
          rw [hlowv]
          unfold urlparseE
          rw [herr2]
        unfold SitemapProcessor.normCore
        rw [if_neg hv, hperr]
        rw [hlowv]
        exact rstrip_idem _
    | ok p =>
      rcases urlparseE_ok_inv hp with ⟨r, hr, hpn, hpp⟩
      have hfacts := urlsplitCore_ok_facts (x := preprocessUrl (lowerL u)) hr
      rcases hfacts with ⟨f1, f2, f3, f4, f5, f6, f7⟩
      have hpathsemi : ';' ∉ r.path := fun hc => hlsemi (pre_subset_self _ (f6 hc))
      have hpath_eq : p.path = r.path := by
        rw [hpp, splitparams_no_semi hpathsemi]
      have h1 : SitemapProcessor.normCore u =
          unsplitHttps r.netloc (stripPath r.path) := by
        unfold SitemapProcessor.normCore
        rw [if_neg hu, hp]
        dsimp only
        rw [hpn, hpath_eq]
      rw [h1]
      apply normCore_reparse
      · exact f1
      · exact f2
      · intro c hc
        rcases List.mem_append.mp hc with hc | hc
        · exact hlfix c (pre_subset_self _ (f5 hc))
        · exact hlfix c (pre_subset_self _ (f6 (mem_stripPath hc)))
      · intro c hc
        rcases List.mem_append.mp hc with hc | hc
        · exact mem_pre_unsafe (f5 hc)
        · exact mem_pre_unsafe (f6 (mem_stripPath hc))
      · exact fun hc => f3 (mem_stripPath hc)
      · exact fun hc => f4 (mem_stripPath hc)
      · exact fun hc => hpathsemi (mem_stripPath hc)
      · intro hn
        rcases f7 hn with hpnil | hphead
        · left
          rw [hpnil]
          rfl
        · rcases stripPath_head r.path with h | h
          · exact Or.inl h
          · right
            rw [h, hphead]
      · exact stripPath_idem r.path

/-- C8 counterexample: for the sitemap_processor.py normalize_url, the
URL https://example.com/a;b/ normalizes to https://example.com/a;b, whose
second normalization re-splits the path parameters at the semicolon and
yields https://example.com/a, so normalization is not idempotent as
claimed. -/
theorem C8_not_idempotent_counterexample :
    SitemapProcessor.normalize_url
        (SitemapProcessor.normalize_url "https://example.com/a;b/") ≠
      SitemapProcessor.normalize_url "https://example.com/a;b/" ∧
    SitemapProcessor.normalize_url "https://example.com/a;b/" =
      "https://example.com/a;b" ∧
    SitemapProcessor.normalize_url "https://example.com/a;b" =
      "https://example.com/a" := by
  refine ⟨by decide, by decide, by decide⟩

/-- C8 as amended: the utils.py normalize_url (whose fallback path is
always taken, urlunparse being unimported there) is idempotent for every
URL string, and the sitemap_processor.py normalize_url is idempotent for
every URL string containing no semicolon. -/
theorem C8_normalize_idempotent :
    (∀ s : String, Utils.normalize_url (Utils.normalize_url s) =
      Utils.normalize_url s) ∧
    (∀ s : String, ';' ∉ s.data →
      SitemapProcessor.normalize_url (SitemapProcessor.normalize_url s) =
        SitemapProcessor.normalize_url s) := by
  constructor
  · intro s
    show (⟨Utils.normCore (Utils.normCore s.data)⟩ : String) = ⟨Utils.normCore s.data⟩
    exact congrArg String.mk (utils_normCore_idem s.data)
  · intro s hs
    show (⟨SitemapProcessor.normCore (SitemapProcessor.normCore s.data)⟩ : String) =
      ⟨SitemapProcessor.normCore s.data⟩
    exact congrArg String.mk (sitemap_normCore_idem s.data hs)

/-- Witness for C8: both normalizations are idempotent at a concrete URL
with upper-case letters, a query string and a trailing slash. -/
theorem C8_normalize_idempotent_witness :
    Utils.normalize_url (Utils.normalize_url "HTTP://Example.com/Pie/") =
      Utils.normalize_url "HTTP://Example.com/Pie/" ∧
    (';' ∉ ("HTTP://Example.com/Pie/?q=1" : String).data) ∧
    SitemapProcessor.normalize_url
        (SitemapProcessor.normalize_url "HTTP://Example.com/Pie/?q=1") =
      SitemapProcessor.normalize_url "HTTP://Example.com/Pie/?q=1" :=
  ⟨C8_normalize_idempotent.1 "HTTP://Example.com/Pie/",
   by decide,
   C8_normalize_idempotent.2 "HTTP://Example.com/Pie/?q=1" (by decide)⟩
